import Mathlib

/-!
Verification of the transaction DAG tracker of the congestion model
(`tools/congestion-model/src/model/transaction.rs`).

A `Transaction` owns the full receipt DAG of one simulated transaction.
Receipts live in four buckets (`future_receipts`, `pending_receipts`,
`dropped_receipts`, `executed_receipts`); the lifecycle operations
`start`, `execute_receipt`, `drop_receipt` and the internal primitive
`activate_receipt` move receipts between buckets.

The opaque framework types `ReceiptId`, `Round`, `ShardId`,
`TransactionId` and `GGas` are modelled as `Nat`.  `HashMap` is modelled
as an association list with replace-on-insert semantics and `HashSet`
as a duplicate-free-by-construction list; Rust panics (`expect`, index
out of bounds) are modelled by `Option`/`Except` error results.
-/

namespace CongestionModel

/-- Association-list lookup, modelling `HashMap` lookup / indexing. -/
def findVal {β : Type} (k : Nat) : List (Nat × β) → Option β
  | [] => none
  | (k', v) :: rest => if k' = k then some v else findVal k rest

/-- Remove a key, modelling `HashMap::remove`'s effect on the map. -/
def eraseKey {β : Type} (k : Nat) : List (Nat × β) → List (Nat × β)
  | [] => []
  | (k', v) :: rest => if k' = k then eraseKey k rest else (k', v) :: eraseKey k rest

/-- Insert/replace a binding, modelling `HashMap::insert`. -/
def insertKey {β : Type} (k : Nat) (v : β) (m : List (Nat × β)) : List (Nat × β) :=
  (k, v) :: eraseKey k m

/-- Keys of an association list. -/
def keysOf {β : Type} (m : List (Nat × β)) : List Nat := m.map Prod.fst

/-- Set insertion, modelling `HashSet::insert`. -/
def setInsert (x : Nat) (s : List Nat) : List Nat := if x ∈ s then s else x :: s

/-- Set removal, modelling `HashSet::remove`. -/
def setRemove (x : Nat) : List Nat → List Nat
  | [] => []
  | y :: rest => if y = x then setRemove x rest else y :: setRemove x rest

/-- Model of `Receipt` (transaction.rs, lines 46-59). -/
structure Receipt where
  id : Nat
  created_at : Option Nat
  dropped_at : Option Nat
  executed_at : Option Nat
  receiver : Nat
  size : Nat
  attached_gas : Nat
  execution_gas : Nat
deriving DecidableEq, Repr

/-- Model of `Transaction` (transaction.rs, lines 8-44). -/
structure Transaction where
  id : Nat
  sender_shard : Nat
  initial_receipt_receiver : Nat
  initial_receipt : Nat
  tx_conversion_cost : Nat
  initial_receipt_gas : Nat
  outgoing : List (Nat × List Nat)
  dependencies : List (Nat × List Nat)
  future_receipts : List (Nat × Receipt)
  pending_receipts : List Nat
  dropped_receipts : List (Nat × Receipt)
  executed_receipts : List (Nat × Receipt)
deriving DecidableEq, Repr

/-- Model of `ExecutionResult` (transaction.rs, lines 61-64). -/
structure ExecutionResult where
  gas_burnt : Nat
  new_receipts : List Receipt
deriving DecidableEq, Repr

/-- The two panic sites of `execute_receipt`: indexing `outgoing` with an
unknown receipt id, and the `expect` on a failed activation. -/
inductive ExecError where
  | missingOutgoing
  | doubleActivation
deriving DecidableEq, Repr

/-- Model of `Transaction::activate_receipt` (transaction.rs, lines 104-113):
remove the receipt from `future_receipts`, stamp `created_at`, insert its id
into `pending_receipts`; `none` when the id is not a `future_receipts` key. -/
def Transaction.activate_receipt (t : Transaction) (receipt_id : Nat) (round : Nat) :
    Option (Receipt × Transaction) :=
  match findVal receipt_id t.future_receipts with
  | none => none
  | some rc =>
    let receipt := { rc with created_at := some round }
    some (receipt,
      { t with
        future_receipts := eraseKey receipt_id t.future_receipts
        pending_receipts := setInsert receipt.id t.pending_receipts })

/-- Model of `Transaction::start` (transaction.rs, lines 67-73).  The
`expect("should not start the same transaction twice")` panic is the `none`
result. -/
def Transaction.start (t : Transaction) (round : Nat) :
    Option (ExecutionResult × Transaction) :=
  match t.activate_receipt t.initial_receipt round with
  | none => none
  | some (receipt, t1) =>
    some ({ gas_burnt := t.tx_conversion_cost, new_receipts := [receipt] },
      { t1 with pending_receipts := setInsert t.initial_receipt t1.pending_receipts })

/-- Activate a list of receipt ids in order, short-circuiting on the first
failure; models the `map`/`expect`/`collect` loop of `execute_receipt`. -/
def Transaction.activateAll (t : Transaction) (ids : List Nat) (round : Nat) :
    Option (List Receipt × Transaction) :=
  match ids with
  | [] => some ([], t)
  | rid :: rest =>
    match t.activate_receipt rid round with
    | none => none
    | some (rc, t1) =>
      match t1.activateAll rest round with
      | none => none
      | some (rcs, t2) => some (rc :: rcs, t2)

/-- Model of `Transaction::execute_receipt` (transaction.rs, lines 75-96). -/
def Transaction.execute_receipt (t : Transaction) (receipt : Receipt) (round : Nat) :
    Except ExecError (ExecutionResult × Transaction) :=
  match findVal receipt.id t.outgoing with
  | none => .error .missingOutgoing
  | some outgoing_ids =>
    match t.activateAll outgoing_ids round with
    | none => .error .doubleActivation
    | some (new_receipts, t1) =>
      let gas_burnt := receipt.execution_gas
      let receipt' := { receipt with executed_at := some round }
      .ok ({ gas_burnt := gas_burnt, new_receipts := new_receipts },
        { t1 with
          pending_receipts := setRemove receipt.id t1.pending_receipts
          executed_receipts := insertKey receipt.id receipt' t1.executed_receipts })

/-- Model of `Transaction::drop_receipt` (transaction.rs, lines 98-102); total,
it performs no check. -/
def Transaction.drop_receipt (t : Transaction) (receipt : Receipt) (round : Nat) :
    Transaction :=
  { t with
    pending_receipts := setRemove receipt.id t.pending_receipts
    dropped_receipts :=
      insertKey receipt.id { receipt with dropped_at := some round } t.dropped_receipts }

/-- Model of `Receipt::gas_burnt` (transaction.rs, lines 148-154). -/
def Receipt.gas_burnt (rc : Receipt) : Nat :=
  if rc.executed_at.isSome then rc.execution_gas else 0

/-- Model of `Receipt::new_future_receipt` (transaction.rs, lines 125-142). -/
def Receipt.new_future_receipt (id : Nat) (receiver : Nat) (size : Nat)
    (attached_gas : Nat) (execution_gas : Nat) : Receipt :=
  { id := id, created_at := none, dropped_at := none, executed_at := none,
    receiver := receiver, size := size, attached_gas := attached_gas,
    execution_gas := execution_gas }

/-- `Except` success test (used to exhibit absence of a panic). -/
def isOkB {ε α : Type} : Except ε α → Bool
  | .ok _ => true
  | .error _ => false

/-! ## Lifecycle state and invariants -/

/-- All receipt identifiers currently tracked by the transaction, bucket by
bucket. -/
def allIds (t : Transaction) : List Nat :=
  keysOf t.future_receipts ++ t.pending_receipts ++
    keysOf t.dropped_receipts ++ keysOf t.executed_receipts

/-- Total number of receipt identifiers held across the four buckets. -/
def receiptCount (t : Transaction) : Nat := (allIds t).length

/-- Well-formedness established at construction time: the four buckets hold
pairwise distinct identifiers (each at most once), and every receipt stored in
`future_receipts` is keyed by its own id. -/
def WF (t : Transaction) : Prop :=
  (allIds t).Nodup ∧ ∀ p ∈ t.future_receipts, (Prod.snd p).id = Prod.fst p

instance (t : Transaction) : Decidable (WF t) := by
  unfold WF; infer_instance

/-- Lifecycle position of a receipt identifier. -/
inductive RState where
  | future
  | pending
  | dropped
  | executed
  | absent
deriving DecidableEq, Repr

/-- The bucket currently holding an identifier (first match wins; under `WF`
the buckets are disjoint, so the order is irrelevant). -/
def stateOf (t : Transaction) (id : Nat) : RState :=
  if (findVal id t.future_receipts).isSome then .future
  else if id ∈ t.pending_receipts then .pending
  else if (findVal id t.dropped_receipts).isSome then .dropped
  else if (findVal id t.executed_receipts).isSome then .executed
  else .absent

/-- Allowed single-operation moves of one identifier:
`future → pending → (executed | dropped)`, never backwards, terminal states
stay put, and identifiers never appear or disappear. -/
def stepOk : RState → RState → Bool
  | .future, .future => true
  | .future, .pending => true
  | .pending, .pending => true
  | .pending, .dropped => true
  | .pending, .executed => true
  | .dropped, .dropped => true
  | .executed, .executed => true
  | .absent, .absent => true
  | _, _ => false

/-- In how many of the four buckets an identifier occurs. -/
def inBucketCount (t : Transaction) (id : Nat) : Nat :=
  (if (findVal id t.future_receipts).isSome then 1 else 0) +
  (if id ∈ t.pending_receipts then 1 else 0) +
  (if (findVal id t.dropped_receipts).isSome then 1 else 0) +
  (if (findVal id t.executed_receipts).isSome then 1 else 0)

/-- Conclusion of C3: what `start` returns and does on a fresh transaction. -/
def startSpecProp (t : Transaction) (round : Nat) (rc0 : Receipt) : Prop :=
  ∃ res t',
    t.start round = some (res, t') ∧
    res.gas_burnt = t.tx_conversion_cost ∧
    res.new_receipts = [{ rc0 with created_at := some round }] ∧
    res.new_receipts.map Receipt.id = [t.initial_receipt] ∧
    res.new_receipts.map Receipt.created_at = [some round] ∧
    findVal t.initial_receipt t'.future_receipts = none ∧
    t.initial_receipt ∈ t'.pending_receipts

/-- Conclusion of C2: what `execute_receipt` returns and does when the
executed receipt has exactly the two children `a` and `b`. -/
def executeSpecProp (t : Transaction) (rc : Receipt) (round a b : Nat)
    (ra rb : Receipt) : Prop :=
  ∃ res t',
    t.execute_receipt rc round = .ok (res, t') ∧
    res.gas_burnt = rc.execution_gas ∧
    res.new_receipts =
      [{ ra with created_at := some round }, { rb with created_at := some round }] ∧
    res.new_receipts.map Receipt.id = [a, b] ∧
    findVal rc.id t'.executed_receipts = some { rc with executed_at := some round } ∧
    rc.id ∉ t'.pending_receipts ∧
    a ∈ t'.pending_receipts ∧ b ∈ t'.pending_receipts ∧
    a ∉ keysOf t'.future_receipts ∧ b ∉ keysOf t'.future_receipts

/-- Conclusion of C1, for one operation taking the state `t` to `t'`: the
state is still well formed, the tracked identifier collection is preserved
(as a permutation, hence the total count is conserved), every tracked
identifier lies in exactly one bucket, and every identifier's bucket moved
only along `future → pending → (executed | dropped)`. -/
def lifecycleOk (t t' : Transaction) : Prop :=
  WF t' ∧ (allIds t').Perm (allIds t) ∧ receiptCount t' = receiptCount t ∧
  (∀ id ∈ allIds t', inBucketCount t' id = 1) ∧
  (∀ id, stepOk (stateOf t id) (stateOf t' id) = true)

/-- C1, stated for the three mutating operations under contract use: a
successful `start`, a successful `execute_receipt` of a pending receipt, and
a `drop_receipt` of a pending receipt each preserve the lifecycle
invariants. -/
def lifecycleClaims (t : Transaction) (round : Nat) : Prop :=
  (∀ res t', t.start round = some (res, t') → lifecycleOk t t') ∧
  (∀ (rc : Receipt) (res : ExecutionResult) (t' : Transaction),
      rc.id ∈ t.pending_receipts →
      t.execute_receipt rc round = .ok (res, t') → lifecycleOk t t') ∧
  (∀ rc : Receipt, rc.id ∈ t.pending_receipts →
      lifecycleOk t (t.drop_receipt rc round))

/-! ## Concrete fixtures (the example scenario of the design notes) -/

/-- Initial receipt `R0` of the example transaction. -/
def exR0 : Receipt := Receipt.new_future_receipt 0 1 100 10 3

/-- Child receipt `R1`. -/
def exR1 : Receipt := Receipt.new_future_receipt 1 2 50 4 1

/-- Child receipt `R2`. -/
def exR2 : Receipt := Receipt.new_future_receipt 2 0 60 4 1

/-- Example transaction with DAG `R0 → [R1, R2]`, `R1 → []`, `R2 → []`. -/
def exTx : Transaction :=
  { id := 0, sender_shard := 0, initial_receipt_receiver := 1,
    initial_receipt := 0, tx_conversion_cost := 2, initial_receipt_gas := 10,
    outgoing := [(0, [1, 2]), (1, []), (2, [])],
    dependencies := [(1, [0]), (2, [0])],
    future_receipts := [(0, exR0), (1, exR1), (2, exR2)],
    pending_receipts := [], dropped_receipts := [], executed_receipts := [] }

/-- `R0` as activated at round 1. -/
def exR0p : Receipt := { exR0 with created_at := some 1 }

/-- The example transaction after `start 1`: `R0` pending, `R1`/`R2` future. -/
def exTx1 : Transaction :=
  { exTx with
    future_receipts := [(1, exR1), (2, exR2)], pending_receipts := [0] }

/-- `R0` as executed at round 2. -/
def exR0e : Receipt := { exR0p with executed_at := some 2 }

/-- A transaction whose single leaf receipt `R0` has already been executed:
`outgoing 0 = []`, nothing pending or future. -/
def exTx5 : Transaction :=
  { exTx with
    outgoing := [(0, [])], dependencies := [],
    future_receipts := [], pending_receipts := [],
    executed_receipts := [(0, exR0e)] }

/-- Like the executed example state, but `R0` has children `[1, 2]` that were
already activated (they are pending, no longer future). -/
def exTx5b : Transaction :=
  { exTx with
    future_receipts := [], pending_receipts := [1, 2],
    executed_receipts := [(0, exR0e)] }

/-- A receipt whose id `9` is not a node of the example DAG. -/
def exR9 : Receipt := Receipt.new_future_receipt 9 0 1 1 1

/-! ## Association-list and set lemmas -/

theorem findVal_isSome_iff {β : Type} (k : Nat) (m : List (Nat × β)) :
    (findVal k m).isSome ↔ k ∈ keysOf m := by
  induction m with
  | nil => simp [findVal, keysOf]
  | cons p rest ih =>
    obtain ⟨k', v⟩ := p
    by_cases h : k' = k
    · subst h
      simp [findVal, keysOf]
    · simp [findVal, keysOf, h, ih]
      intro hk
      exact (h hk.symm).elim

theorem findVal_eq_none_iff {β : Type} (k : Nat) (m : List (Nat × β)) :
    findVal k m = none ↔ k ∉ keysOf m := by
  rw [← findVal_isSome_iff]
  cases findVal k m <;> simp

theorem findVal_mem {β : Type} {k : Nat} {m : List (Nat × β)} {v : β}
    (h : findVal k m = some v) : (k, v) ∈ m := by
  induction m with
  | nil => simp [findVal] at h
  | cons p rest ih =>
    obtain ⟨k', v'⟩ := p
    by_cases hk : k' = k
    · subst hk
      simp [findVal] at h
      subst h
      exact List.mem_cons_self _ _
    · simp [findVal, hk] at h
      exact List.mem_cons_of_mem _ (ih h)

theorem keysOf_eraseKey {β : Type} (k : Nat) (m : List (Nat × β)) :
    keysOf (eraseKey k m) = setRemove k (keysOf m) := by
  induction m with
  | nil => rfl
  | cons p rest ih =>
    obtain ⟨k', v⟩ := p
    by_cases h : k' = k
    · simp only [eraseKey, keysOf, List.map_cons, setRemove, if_pos h]
      exact ih
    · simp only [eraseKey, keysOf, List.map_cons, setRemove, if_neg h]
      rw [← keysOf, ← keysOf, ih]

theorem mem_setRemove {j k : Nat} {s : List Nat} :
    j ∈ setRemove k s ↔ j ∈ s ∧ j ≠ k := by
  induction s with
  | nil => simp [setRemove]
  | cons y rest ih =>
    by_cases h : y = k
    · subst h
      have e : setRemove y (y :: rest) = setRemove y rest := by
        simp [setRemove]
      rw [e, ih]
      simp only [List.mem_cons]
      constructor
      · rintro ⟨hj, hk⟩
        exact ⟨Or.inr hj, hk⟩
      · rintro ⟨rfl | hj, hk⟩
        · exact absurd rfl hk
        · exact ⟨hj, hk⟩
    · have e : setRemove k (y :: rest) = y :: setRemove k rest := by
        simp [setRemove, h]
      rw [e]
      simp only [List.mem_cons, ih]
      constructor
      · rintro (rfl | ⟨hj, hk⟩)
        · exact ⟨Or.inl rfl, h⟩
        · exact ⟨Or.inr hj, hk⟩
      · rintro ⟨rfl | hj, hk⟩
        · exact Or.inl rfl
        · exact Or.inr ⟨hj, hk⟩

theorem not_mem_setRemove_self (k : Nat) (s : List Nat) : k ∉ setRemove k s := by
  intro h
  exact (mem_setRemove.mp h).2 rfl

theorem mem_setInsert {j k : Nat} {s : List Nat} :
    j ∈ setInsert k s ↔ j = k ∨ j ∈ s := by
  unfold setInsert
  by_cases h : k ∈ s
  · simp [h]
    rintro rfl
    exact h
  · simp [h]

theorem setInsert_of_mem {k : Nat} {s : List Nat} (h : k ∈ s) :
    setInsert k s = s := by
  simp [setInsert, h]

theorem setInsert_of_not_mem {k : Nat} {s : List Nat} (h : k ∉ s) :
    setInsert k s = k :: s := by
  simp [setInsert, h]

theorem setRemove_of_not_mem {k : Nat} {s : List Nat} (h : k ∉ s) :
    setRemove k s = s := by
  induction s with
  | nil => rfl
  | cons y rest ih =>
    simp at h
    simp [setRemove, Ne.symm h.1, ih h.2]

theorem setRemove_eq_erase {k : Nat} {s : List Nat} (h : s.Nodup) :
    setRemove k s = s.erase k := by
  induction s with
  | nil => rfl
  | cons y rest ih =>
    simp at h
    by_cases hy : y = k
    · subst hy
      simp [setRemove, List.erase_cons_head, setRemove_of_not_mem h.1]
    · rw [List.erase_cons_tail]
      · simp [setRemove, hy, ih h.2]
      · simp [hy]

theorem perm_cons_setRemove {k : Nat} {s : List Nat} (hn : s.Nodup) (hm : k ∈ s) :
    (k :: setRemove k s).Perm s := by
  rw [setRemove_eq_erase hn]
  exact (List.perm_cons_erase hm).symm

theorem findVal_eraseKey_self {β : Type} (k : Nat) (m : List (Nat × β)) :
    findVal k (eraseKey k m) = none := by
  rw [findVal_eq_none_iff, keysOf_eraseKey]
  exact not_mem_setRemove_self k _

theorem findVal_eraseKey_ne {β : Type} {j k : Nat} (h : j ≠ k) (m : List (Nat × β)) :
    findVal j (eraseKey k m) = findVal j m := by
  induction m with
  | nil => rfl
  | cons p rest ih =>
    obtain ⟨k', v⟩ := p
    by_cases hk : k' = k
    · have hkj : ¬ k' = j := by
        intro hh
        exact h (hh ▸ hk)
      simp only [eraseKey, if_pos hk, findVal, if_neg hkj]
      exact ih
    · simp only [eraseKey, if_neg hk, findVal]
      by_cases hj : k' = j
      · simp [if_pos hj]
      · simp only [if_neg hj]
        exact ih

theorem findVal_insertKey_self {β : Type} (k : Nat) (v : β) (m : List (Nat × β)) :
    findVal k (insertKey k v m) = some v := by
  simp [insertKey, findVal]

theorem findVal_insertKey_ne {β : Type} {j k : Nat} (h : j ≠ k) (v : β)
    (m : List (Nat × β)) :
    findVal j (insertKey k v m) = findVal j m := by
  have : k ≠ j := fun hh => h hh.symm
  simp [insertKey, findVal, this, findVal_eraseKey_ne h]

theorem eraseKey_of_not_mem {β : Type} {k : Nat} {m : List (Nat × β)}
    (h : k ∉ keysOf m) : eraseKey k m = m := by
  induction m with
  | nil => rfl
  | cons p rest ih =>
    obtain ⟨k', v⟩ := p
    simp [keysOf] at h
    simp [eraseKey, Ne.symm h.1, ih (by simpa [keysOf] using h.2)]

theorem mem_of_mem_eraseKey {β : Type} {k : Nat} {m : List (Nat × β)}
    {p : Nat × β} (h : p ∈ eraseKey k m) : p ∈ m := by
  induction m with
  | nil => exact h
  | cons q rest ih =>
    obtain ⟨k', v⟩ := q
    by_cases hk : k' = k
    · simp [eraseKey, hk] at h
      exact List.mem_cons_of_mem _ (ih h)
    · simp [eraseKey, hk] at h
      rcases h with h | h
      · simp [h]
      · exact List.mem_cons_of_mem _ (ih h)

/-! ## C7, C9, C6, C10, C8, C3, C4 -/

/-- C7: `Receipt::gas_burnt` returns 0 whenever `executed_at` is `None` and
returns exactly `execution_gas` whenever `executed_at` is `Some round`, for
any round. -/
theorem receipt_gas_burnt_spec (rc : Receipt) :
    (rc.executed_at = none → rc.gas_burnt = 0) ∧
    (∀ r : Nat, rc.executed_at = some r → rc.gas_burnt = rc.execution_gas) := by
  constructor
  · intro h
    simp [Receipt.gas_burnt, h]
  · intro r h
    simp [Receipt.gas_burnt, h]

/-- Witness for C7: a pending receipt burns no gas, an executed one burns its
`execution_gas`. -/
theorem receipt_gas_burnt_spec_witness :
    exR0p.gas_burnt = 0 ∧ exR0e.gas_burnt = exR0e.execution_gas :=
  ⟨(receipt_gas_burnt_spec exR0p).1 rfl, (receipt_gas_burnt_spec exR0e).2 2 rfl⟩

/-- C9: `drop_receipt` is total and checks nothing: for every transaction
state, receipt value and round it completes, records the receipt in
`dropped_receipts` stamped with `dropped_at = round`, removes the id from
`pending_receipts`, and touches no other bucket. -/
theorem drop_receipt_total (t : Transaction) (rc : Receipt) (round : Nat) :
    findVal rc.id (t.drop_receipt rc round).dropped_receipts =
      some { rc with dropped_at := some round } ∧
    rc.id ∉ (t.drop_receipt rc round).pending_receipts ∧
    (t.drop_receipt rc round).future_receipts = t.future_receipts ∧
    (t.drop_receipt rc round).executed_receipts = t.executed_receipts := by
  refine ⟨?_, ?_, rfl, rfl⟩
  · exact findVal_insertKey_self rc.id _ t.dropped_receipts
  · exact not_mem_setRemove_self rc.id t.pending_receipts

/-- Witness for C9 at a state where the dropped receipt was never pending and
is already recorded as executed: the call still completes and records it. -/
theorem drop_receipt_total_witness :
    findVal exR0e.id (exTx5.drop_receipt exR0e 9).dropped_receipts =
      some { exR0e with dropped_at := some 9 } :=
  (drop_receipt_total exTx5 exR0e 9).1

/-- C6: a second `start` fails fatally: whenever `start` has succeeded once,
calling it again on the resulting state returns the panic result (`none`),
never an `ExecutionResult`. -/
theorem start_twice_fails (t : Transaction) (round : Nat) (res : ExecutionResult)
    (t1 : Transaction) (round' : Nat) (h : t.start round = some (res, t1)) :
    t1.start round' = none := by
  unfold Transaction.start Transaction.activate_receipt at h
  cases hf : findVal t.initial_receipt t.future_receipts with
  | none =>
    rw [hf] at h
    simp at h
  | some rc =>
    rw [hf] at h
    simp only [Option.some.injEq, Prod.mk.injEq] at h
    obtain ⟨-, ht1⟩ := h
    subst ht1
    simp [Transaction.start, Transaction.activate_receipt, findVal_eraseKey_self]

/-- Witness for C6: starting the example transaction once succeeds, starting
again fails. -/
theorem start_twice_fails_witness :
    exTx.start 1 = some ({ gas_burnt := 2, new_receipts := [exR0p] }, exTx1) ∧
    exTx1.start 5 = none :=
  ⟨by decide,
    start_twice_fails exTx 1 { gas_burnt := 2, new_receipts := [exR0p] } exTx1 5
      (by decide)⟩

/-- C10: `execute_receipt` aborts with the `outgoing`-indexing panic exactly
when the receipt's id is not a key of `outgoing`; whenever the id has an
`outgoing` entry, that abort branch is not taken. -/
theorem execute_missing_outgoing_iff (t : Transaction) (rc : Receipt) (round : Nat) :
    t.execute_receipt rc round = .error .missingOutgoing ↔
      findVal rc.id t.outgoing = none := by
  unfold Transaction.execute_receipt
  cases hf : findVal rc.id t.outgoing with
  | none => simp
  | some ids =>
    simp only [Option.some.injEq]
    cases ha : t.activateAll ids round with
    | none => simp
    | some p =>
      obtain ⟨rcs, t1⟩ := p
      simp

/-- Witness for C10: executing a receipt with no `outgoing` entry hits the
indexing panic. -/
theorem execute_missing_outgoing_iff_witness :
    exTx.execute_receipt exR9 3 = .error .missingOutgoing :=
  (execute_missing_outgoing_iff exTx exR9 3).mpr (by decide)

/-- C8: `activate_receipt` returns `none` exactly when the id is not a key of
`future_receipts`; otherwise it removes the receipt from `future_receipts`,
stamps `created_at = round`, inserts the receipt's id into
`pending_receipts`, and returns the receipt value. -/
theorem activate_receipt_spec (t : Transaction) (rid round : Nat) :
    (t.activate_receipt rid round = none ↔ rid ∉ keysOf t.future_receipts) ∧
    (∀ rc0, findVal rid t.future_receipts = some rc0 →
      t.activate_receipt rid round =
        some ({ rc0 with created_at := some round },
          { t with
            future_receipts := eraseKey rid t.future_receipts
            pending_receipts := setInsert rc0.id t.pending_receipts })) := by
  constructor
  · unfold Transaction.activate_receipt
    cases hf : findVal rid t.future_receipts with
    | none =>
      simp only [true_iff]
      rw [findVal_eq_none_iff] at hf
      simpa using hf
    | some rc =>
      simp only [reduceCtorEq, false_iff, not_not]
      rw [← findVal_isSome_iff, hf]
      rfl
  · intro rc0 hf
    unfold Transaction.activate_receipt
    rw [hf]

/-- Witness for C8: activating `R0` of the example transaction produces
exactly the activated receipt and the expected bucket moves. -/
theorem activate_receipt_spec_witness :
    findVal 0 exTx.future_receipts = some exR0 ∧
    exTx.activate_receipt 0 1 =
      some ({ exR0 with created_at := some 1 },
        { exTx with
          future_receipts := eraseKey 0 exTx.future_receipts
          pending_receipts := setInsert exR0.id exTx.pending_receipts }) :=
  ⟨by decide, (activate_receipt_spec exTx 0 1).2 exR0 (by decide)⟩

/-- C3: on a freshly constructed transaction (initial receipt still in
`future_receipts`, keyed by its own id), `start round` moves the initial
receipt from `future_receipts` to `pending_receipts`, stamps
`created_at = round`, and returns `gas_burnt = tx_conversion_cost` together
with exactly the one-element receipt list. -/
theorem start_spec (t : Transaction) (round : Nat) (rc0 : Receipt)
    (hf : findVal t.initial_receipt t.future_receipts = some rc0)
    (hid : rc0.id = t.initial_receipt) :
    startSpecProp t round rc0 := by
  unfold startSpecProp Transaction.start Transaction.activate_receipt
  rw [hf]
  refine ⟨_, _, rfl, rfl, rfl, by simp [hid], by simp, ?_, ?_⟩
  · exact findVal_eraseKey_self t.initial_receipt t.future_receipts
  · exact mem_setInsert.mpr (Or.inl rfl)

/-- Witness for C3 on the example transaction. -/
theorem start_spec_witness :
    findVal exTx.initial_receipt exTx.future_receipts = some exR0 ∧
    exR0.id = exTx.initial_receipt ∧
    startSpecProp exTx 1 exR0 :=
  ⟨by decide, by decide, start_spec exTx 1 exR0 (by decide) (by decide)⟩

/-- C4: dropping a pending receipt removes its id from `pending_receipts` and
stores it in `dropped_receipts` with `dropped_at = round` while `executed_at`
stays `None`; the stored receipt burns no gas and `future_receipts` is
untouched, so no `outgoing` target is activated. -/
theorem drop_receipt_spec (t : Transaction) (rc : Receipt) (round : Nat)
    (hpend : rc.id ∈ t.pending_receipts) (hexec : rc.executed_at = none) :
    rc.id ∉ (t.drop_receipt rc round).pending_receipts ∧
    findVal rc.id (t.drop_receipt rc round).dropped_receipts =
      some { rc with dropped_at := some round } ∧
    ({ rc with dropped_at := some round }).executed_at = none ∧
    ({ rc with dropped_at := some round }).gas_burnt = 0 ∧
    (t.drop_receipt rc round).future_receipts = t.future_receipts := by
  refine ⟨?_, ?_, hexec, ?_, rfl⟩
  · exact not_mem_setRemove_self rc.id t.pending_receipts
  · exact findVal_insertKey_self rc.id _ t.dropped_receipts
  · simp [Receipt.gas_burnt, hexec]

/-- Witness for C4: dropping pending `R0` of the started example. -/
theorem drop_receipt_spec_witness :
    exR0p.id ∈ exTx1.pending_receipts ∧
    exR0p.executed_at = none ∧
    findVal exR0p.id (exTx1.drop_receipt exR0p 3).dropped_receipts =
      some { exR0p with dropped_at := some 3 } :=
  ⟨by decide, by decide,
    (drop_receipt_spec exTx1 exR0p 3 (by decide) (by decide)).2.1⟩

/-! ## C5 and C2 -/

/-- C5 counterexample: the already-executed leaf receipt `R0` of `exTx5`
(empty `outgoing` list) is resolved, yet `execute_receipt` completes with an
`ExecutionResult` instead of aborting. -/
theorem execute_resolved_counterexample :
    (findVal exR0e.id exTx5.executed_receipts).isSome = true ∧
    findVal exR0e.id exTx5.outgoing = some [] ∧
    isOkB (exTx5.execute_receipt exR0e 7) = true := by decide

/-- C5 amended: re-executing a resolved receipt aborts only via the
activation check — whenever its `outgoing` list is non-empty and its first
target has already left `future_receipts` (as after a genuine earlier
execution), the call fails fatally with the double-activation panic. -/
theorem execute_resolved_aborts (t : Transaction) (rc : Receipt) (round : Nat)
    (x : Nat) (rest : List Nat)
    (hres : (findVal rc.id t.executed_receipts).isSome = true ∨
      (findVal rc.id t.dropped_receipts).isSome = true)
    (hout : findVal rc.id t.outgoing = some (x :: rest))
    (hx : findVal x t.future_receipts = none) :
    t.execute_receipt rc round = .error .doubleActivation := by
  unfold Transaction.execute_receipt
  rw [hout]
  simp [Transaction.activateAll, Transaction.activate_receipt, hx]

/-- Witness for the amended C5: re-executing the executed non-leaf `R0`,
whose children are already activated, panics. -/
theorem execute_resolved_aborts_witness :
    (findVal exR0e.id exTx5b.executed_receipts).isSome = true ∧
    exTx5b.execute_receipt exR0e 4 = .error .doubleActivation :=
  ⟨by decide,
    execute_resolved_aborts exTx5b exR0e 4 1 [2] (Or.inl (by decide))
      (by decide) (by decide)⟩

theorem not_mem_keysOf_eraseKey_self {β : Type} (k : Nat) (m : List (Nat × β)) :
    k ∉ keysOf (eraseKey k m) := by
  rw [keysOf_eraseKey]
  exact not_mem_setRemove_self k _

theorem mem_keysOf_of_mem_eraseKey {β : Type} {j k : Nat} {m : List (Nat × β)}
    (h : j ∈ keysOf (eraseKey k m)) : j ∈ keysOf m := by
  rw [keysOf_eraseKey] at h
  exact (mem_setRemove.mp h).1

/-- C2: executing a pending receipt whose `outgoing` entry is `[a, b]` (both
still future, keyed by their ids) moves it to `executed_receipts` stamped
`executed_at = round`, removes it from `pending_receipts`, activates `a` and
`b` out of `future_receipts` into `pending_receipts` stamped
`created_at = round`, and returns `gas_burnt = execution_gas` with
`new_receipts = [a, b]` in that order. -/
theorem execute_two_children_spec (t : Transaction) (rc : Receipt)
    (round a b : Nat) (ra rb : Receipt)
    (hout : findVal rc.id t.outgoing = some [a, b])
    (hfa : findVal a t.future_receipts = some ra) (hia : ra.id = a)
    (hfb : findVal b t.future_receipts = some rb) (hib : rb.id = b)
    (hab : a ≠ b) (harc : a ≠ rc.id) (hbrc : b ≠ rc.id)
    (hpend : rc.id ∈ t.pending_receipts) :
    executeSpecProp t rc round a b ra rb := by
  have hfb' : findVal b (eraseKey a t.future_receipts) = some rb :=
    (findVal_eraseKey_ne (Ne.symm hab) _).trans hfb
  unfold executeSpecProp
  simp only [Transaction.execute_receipt, Transaction.activateAll,
    Transaction.activate_receipt, hout, hfa, hfb']
  refine ⟨_, _, rfl, rfl, rfl, by simp [hia, hib], ?_, ?_, ?_, ?_, ?_, ?_⟩
  · exact findVal_insertKey_self rc.id _ _
  · exact not_mem_setRemove_self rc.id _
  · refine mem_setRemove.mpr ⟨?_, harc⟩
    exact mem_setInsert.mpr (Or.inr (mem_setInsert.mpr (Or.inl hia.symm)))
  · refine mem_setRemove.mpr ⟨?_, hbrc⟩
    exact mem_setInsert.mpr (Or.inl hib.symm)
  · intro h
    exact not_mem_keysOf_eraseKey_self a t.future_receipts
      (mem_keysOf_of_mem_eraseKey h)
  · exact not_mem_keysOf_eraseKey_self b _

/-- Witness for C2 on the started example transaction. -/
theorem execute_two_children_spec_witness :
    findVal exR0p.id exTx1.outgoing = some [1, 2] ∧
    exR0p.id ∈ exTx1.pending_receipts ∧
    executeSpecProp exTx1 exR0p 2 1 2 exR1 exR2 :=
  ⟨by decide, by decide,
    execute_two_children_spec exTx1 exR0p 2 1 2 exR1 exR2 (by decide) (by decide)
      (by decide) (by decide) (by decide) (by decide) (by decide) (by decide)
      (by decide)⟩

/-! ## C1: lifecycle invariant preservation -/

theorem stepOk_refl (s : RState) : stepOk s s = true := by
  cases s <;> rfl

theorem bucket_facts {t : Transaction} (h : WF t) :
    (keysOf t.future_receipts).Nodup ∧ t.pending_receipts.Nodup ∧
    (keysOf t.dropped_receipts).Nodup ∧ (keysOf t.executed_receipts).Nodup ∧
    (∀ x ∈ keysOf t.future_receipts,
      x ∉ t.pending_receipts ∧ x ∉ keysOf t.dropped_receipts ∧
        x ∉ keysOf t.executed_receipts) ∧
    (∀ x ∈ t.pending_receipts,
      x ∉ keysOf t.dropped_receipts ∧ x ∉ keysOf t.executed_receipts) ∧
    (∀ x ∈ keysOf t.dropped_receipts, x ∉ keysOf t.executed_receipts) := by
  obtain ⟨hn, -⟩ := h
  unfold allIds at hn
  rw [List.append_assoc, List.append_assoc] at hn
  have hA := hn.of_append_left
  have hBCD := hn.of_append_right
  have hB := hBCD.of_append_left
  have hCD := hBCD.of_append_right
  have dA := List.disjoint_of_nodup_append hn
  have dB := List.disjoint_of_nodup_append hBCD
  have dC := List.disjoint_of_nodup_append hCD
  refine ⟨hA, hB, hCD.of_append_left, hCD.of_append_right, ?_, ?_, ?_⟩
  · intro x hx
    refine ⟨fun hb => dA hx (List.mem_append.mpr (Or.inl hb)),
      fun hc => dA hx (List.mem_append.mpr (Or.inr (List.mem_append.mpr (Or.inl hc)))),
      fun hd => dA hx (List.mem_append.mpr (Or.inr (List.mem_append.mpr (Or.inr hd))))⟩
  · intro x hx
    refine ⟨fun hc => dB hx (List.mem_append.mpr (Or.inl hc)),
      fun hd => dB hx (List.mem_append.mpr (Or.inr hd))⟩
  · intro x hx hd
    exact dC hx hd

theorem wf_inBucketCount {t : Transaction} (h : WF t) :
    ∀ id ∈ allIds t, inBucketCount t id = 1 := by
  intro id hid
  obtain ⟨-, -, -, -, exF, exP, exD⟩ := bucket_facts h
  unfold allIds at hid
  simp only [List.mem_append] at hid
  have smF : ∀ {x : Nat}, x ∈ keysOf t.future_receipts →
      (findVal x t.future_receipts).isSome = true :=
    fun hx => (findVal_isSome_iff _ _).mpr hx
  have smD : ∀ {x : Nat}, x ∈ keysOf t.dropped_receipts →
      (findVal x t.dropped_receipts).isSome = true :=
    fun hx => (findVal_isSome_iff _ _).mpr hx
  have smE : ∀ {x : Nat}, x ∈ keysOf t.executed_receipts →
      (findVal x t.executed_receipts).isSome = true :=
    fun hx => (findVal_isSome_iff _ _).mpr hx
  have nsF : ∀ {x : Nat}, x ∉ keysOf t.future_receipts →
      ¬ ((findVal x t.future_receipts).isSome = true) :=
    fun hx hc => hx ((findVal_isSome_iff _ _).mp hc)
  have nsD : ∀ {x : Nat}, x ∉ keysOf t.dropped_receipts →
      ¬ ((findVal x t.dropped_receipts).isSome = true) :=
    fun hx hc => hx ((findVal_isSome_iff _ _).mp hc)
  have nsE : ∀ {x : Nat}, x ∉ keysOf t.executed_receipts →
      ¬ ((findVal x t.executed_receipts).isSome = true) :=
    fun hx hc => hx ((findVal_isSome_iff _ _).mp hc)
  unfold inBucketCount
  rcases hid with ((hF | hP) | hD) | hE
  · obtain ⟨h2, h3, h4⟩ := exF id hF
    rw [if_pos (smF hF), if_neg h2, if_neg (nsD h3), if_neg (nsE h4)]
  · obtain ⟨h3, h4⟩ := exP id hP
    have h1 : id ∉ keysOf t.future_receipts := fun hf => (exF id hf).1 hP
    rw [if_neg (nsF h1), if_pos hP, if_neg (nsD h3), if_neg (nsE h4)]
  · have h1 : id ∉ keysOf t.future_receipts := fun hf => (exF id hf).2.1 hD
    have h2 : id ∉ t.pending_receipts := fun hp => (exP id hp).1 hD
    have h4 := exD id hD
    rw [if_neg (nsF h1), if_neg h2, if_pos (smD hD), if_neg (nsE h4)]
  · have h1 : id ∉ keysOf t.future_receipts := fun hf => (exF id hf).2.2 hE
    have h2 : id ∉ t.pending_receipts := fun hp => (exP id hp).2 hE
    have h3 : id ∉ keysOf t.dropped_receipts := fun hd => exD id hd hE
    rw [if_neg (nsF h1), if_neg h2, if_neg (nsD h3), if_pos (smE hE)]

theorem lifecycleOk_of {t t' : Transaction} (hWF' : WF t')
    (hperm : (allIds t').Perm (allIds t))
    (hstep : ∀ id, stepOk (stateOf t id) (stateOf t' id) = true) :
    lifecycleOk t t' :=
  ⟨hWF', hperm, hperm.length_eq, wf_inBucketCount hWF', hstep⟩

theorem perm_shift {x : Nat} {A : List Nat} (B : List Nat) (hA : A.Nodup)
    (hx : x ∈ A) : (setRemove x A ++ (x :: B)).Perm (A ++ B) := by
  have h1 : (setRemove x A ++ (x :: B)).Perm (x :: (setRemove x A ++ B)) :=
    List.perm_middle
  exact h1.trans (List.Perm.append_right B (perm_cons_setRemove hA hx))

theorem perm_shift2 {x : Nat} {B : List Nat} (C D : List Nat) (hB : B.Nodup)
    (hx : x ∈ B) : (setRemove x B ++ (C ++ (x :: D))).Perm (B ++ (C ++ D)) := by
  have h1 : (C ++ (x :: D)).Perm (x :: (C ++ D)) := List.perm_middle
  have h2 := List.Perm.append_left (setRemove x B) h1
  exact h2.trans (perm_shift (C ++ D) hB hx)

theorem activate_receipt_preserves (t : Transaction) (rid round : Nat)
    (hWF : WF t) (rc : Receipt) (t' : Transaction)
    (h : t.activate_receipt rid round = some (rc, t')) :
    WF t' ∧ (allIds t').Perm (allIds t) ∧
    t'.dropped_receipts = t.dropped_receipts ∧
    t'.executed_receipts = t.executed_receipts ∧
    rid ∈ t'.pending_receipts ∧
    (∀ x ∈ t.pending_receipts, x ∈ t'.pending_receipts) ∧
    (∀ id, stateOf t' id = stateOf t id ∨
      (stateOf t id = RState.future ∧ stateOf t' id = RState.pending)) := by
  unfold Transaction.activate_receipt at h
  cases hf : findVal rid t.future_receipts with
  | none =>
    rw [hf] at h
    simp at h
  | some rc0 =>
    rw [hf] at h
    simp only [Option.some.injEq, Prod.mk.injEq] at h
    obtain ⟨-, ht'⟩ := h
    have hkey : rc0.id = rid := hWF.2 _ (findVal_mem hf)
    have hmemF : rid ∈ keysOf t.future_receipts := (findVal_isSome_iff _ _).mp (by
      rw [hf]
      rfl)
    obtain ⟨hA, hB, hC, hD, exF, exP, exD⟩ := bucket_facts hWF
    obtain ⟨hnP, hnD, hnE⟩ := exF rid hmemF
    have hF' : t'.future_receipts = eraseKey rid t.future_receipts := by
      rw [← ht']
    have hP' : t'.pending_receipts = rid :: t.pending_receipts := by
      rw [← ht']
      simp only
      rw [hkey, setInsert_of_not_mem hnP]
    have hD' : t'.dropped_receipts = t.dropped_receipts := by rw [← ht']
    have hE' : t'.executed_receipts = t.executed_receipts := by rw [← ht']
    have hperm : (allIds t').Perm (allIds t) := by
      unfold allIds
      rw [hF', hP', hD', hE', keysOf_eraseKey]
      simp only [List.append_assoc]
      exact perm_shift _ hA hmemF
    refine ⟨⟨hperm.symm.nodup hWF.1, ?_⟩, hperm, hD', hE', ?_, ?_, ?_⟩
    · intro p hp
      rw [hF'] at hp
      exact hWF.2 p (mem_of_mem_eraseKey hp)
    · rw [hP']
      exact List.mem_cons_self _ _
    · intro x hx
      rw [hP']
      exact List.mem_cons_of_mem _ hx
    · intro id
      by_cases hid : id = rid
      · subst hid
        right
        constructor
        · unfold stateOf
          rw [if_pos ((findVal_isSome_iff _ _).mpr hmemF)]
        · unfold stateOf
          rw [hF', hP']
          rw [if_neg ?_, if_pos (List.mem_cons_self _ _)]
          rw [findVal_eraseKey_self]
          simp
      · left
        unfold stateOf
        rw [hF', hP', hD', hE', findVal_eraseKey_ne hid]
        have hmi : (id ∈ rid :: t.pending_receipts) = (id ∈ t.pending_receipts) := by
          simp [List.mem_cons, hid]
        simp only [hmi]

theorem activateAll_preserves (ids : List Nat) (t : Transaction) (round : Nat)
    (hWF : WF t) (rcs : List Receipt) (t' : Transaction)
    (h : t.activateAll ids round = some (rcs, t')) :
    WF t' ∧ (allIds t').Perm (allIds t) ∧
    t'.dropped_receipts = t.dropped_receipts ∧
    t'.executed_receipts = t.executed_receipts ∧
    (∀ x ∈ t.pending_receipts, x ∈ t'.pending_receipts) ∧
    (∀ id, stateOf t' id = stateOf t id ∨
      (stateOf t id = RState.future ∧ stateOf t' id = RState.pending)) := by
  induction ids generalizing t rcs with
  | nil =>
    unfold Transaction.activateAll at h
    simp only [Option.some.injEq, Prod.mk.injEq] at h
    obtain ⟨-, ht'⟩ := h
    subst ht'
    exact ⟨hWF, List.Perm.refl _, rfl, rfl, fun x hx => hx, fun id => Or.inl rfl⟩
  | cons rid rest ih =>
    rw [Transaction.activateAll] at h
    cases ha : t.activate_receipt rid round with
    | none =>
      rw [ha] at h
      simp at h
    | some p =>
      obtain ⟨rc1, t1⟩ := p
      rw [ha] at h
      simp only at h
      cases hb : t1.activateAll rest round with
      | none =>
        rw [hb] at h
        simp at h
      | some q =>
        obtain ⟨rcs2, t2⟩ := q
        rw [hb] at h
        simp only [Option.some.injEq, Prod.mk.injEq] at h
        obtain ⟨-, ht'⟩ := h
        subst ht'
        obtain ⟨hWF1, hperm1, hD1, hE1, -, hsub1, hst1⟩ :=
          activate_receipt_preserves t rid round hWF rc1 t1 ha
        obtain ⟨hWF2, hperm2, hD2, hE2, hsub2, hst2⟩ := ih t1 hWF1 rcs2 hb
        refine ⟨hWF2, hperm2.trans hperm1, hD2.trans hD1, hE2.trans hE1,
          fun x hx => hsub2 x (hsub1 x hx), ?_⟩
        intro id
        rcases hst2 id with he2 | ⟨hf2, hp2⟩
        · rcases hst1 id with he1 | ⟨hf1, hp1⟩
          · exact Or.inl (he2.trans he1)
          · exact Or.inr ⟨hf1, he2.trans hp1⟩
        · rcases hst1 id with he1 | ⟨hf1, hp1⟩
          · exact Or.inr ⟨he1 ▸ hf2, hp2⟩
          · exact Or.inr ⟨hf1, hp2⟩

theorem start_preserves (t : Transaction) (round : Nat) (hWF : WF t)
    (res : ExecutionResult) (t' : Transaction)
    (h : t.start round = some (res, t')) : lifecycleOk t t' := by
  unfold Transaction.start at h
  cases ha : t.activate_receipt t.initial_receipt round with
  | none =>
    rw [ha] at h
    simp at h
  | some p =>
    obtain ⟨rc1, t1⟩ := p
    rw [ha] at h
    simp only [Option.some.injEq, Prod.mk.injEq] at h
    obtain ⟨-, ht'⟩ := h
    obtain ⟨hWF1, hperm1, -, -, hmem1, -, hst1⟩ :=
      activate_receipt_preserves t t.initial_receipt round hWF rc1 t1 ha
    have ht1 : t' = t1 := by
      rw [← ht', setInsert_of_mem hmem1]
    subst ht1
    refine lifecycleOk_of hWF1 hperm1 ?_
    intro id
    rcases hst1 id with he | ⟨hf, hp⟩
    · rw [he]
      exact stepOk_refl _
    · rw [hf, hp]
      rfl

theorem drop_preserves (t : Transaction) (rc : Receipt) (round : Nat)
    (hWF : WF t) (hpend : rc.id ∈ t.pending_receipts) :
    lifecycleOk t (t.drop_receipt rc round) := by
  obtain ⟨hA, hB, hC, hD, exF, exP, exD⟩ := bucket_facts hWF
  have hnF : rc.id ∉ keysOf t.future_receipts := fun hf => (exF _ hf).1 hpend
  obtain ⟨hnD, hnE⟩ := exP _ hpend
  have hkeys : keysOf (Transaction.drop_receipt t rc round).dropped_receipts =
      rc.id :: keysOf t.dropped_receipts := by
    unfold Transaction.drop_receipt insertKey keysOf
    simp only [List.map_cons]
    rw [← keysOf, ← keysOf, eraseKey_of_not_mem hnD]
  have hperm : (allIds (t.drop_receipt rc round)).Perm (allIds t) := by
    unfold allIds
    rw [hkeys]
    show (keysOf t.future_receipts ++ setRemove rc.id t.pending_receipts ++
      (rc.id :: keysOf t.dropped_receipts) ++
      keysOf t.executed_receipts).Perm _
    simp only [List.append_assoc]
    exact List.Perm.append_left _ (perm_shift _ hB hpend)
  refine lifecycleOk_of ⟨hperm.symm.nodup hWF.1, fun p hp => hWF.2 p hp⟩ hperm ?_
  intro id
  by_cases hid : id = rc.id
  · have h0 : stateOf t rc.id = RState.pending := by
      unfold stateOf
      rw [if_neg (fun hc => hnF ((findVal_isSome_iff _ _).mp hc)), if_pos hpend]
    have h1 : stateOf (t.drop_receipt rc round) rc.id = RState.dropped := by
      unfold stateOf Transaction.drop_receipt
      simp only
      rw [if_neg (fun hc => hnF ((findVal_isSome_iff _ _).mp hc)),
        if_neg (not_mem_setRemove_self _ _),
        if_pos (by rw [findVal_insertKey_self]; rfl)]
    rw [hid, h0, h1]
    rfl
  · have he : stateOf (t.drop_receipt rc round) id = stateOf t id := by
      unfold stateOf Transaction.drop_receipt
      simp only
      rw [findVal_insertKey_ne hid]
      have hmi : (id ∈ setRemove rc.id t.pending_receipts) =
          (id ∈ t.pending_receipts) := by
        simp only [eq_iff_iff, mem_setRemove]
        exact ⟨fun hh => hh.1, fun hh => ⟨hh, hid⟩⟩
      simp only [hmi]
    rw [he]
    exact stepOk_refl _

theorem execute_preserves (t : Transaction) (rc : Receipt) (round : Nat)
    (hWF : WF t) (hpend : rc.id ∈ t.pending_receipts)
    (res : ExecutionResult) (t' : Transaction)
    (h : t.execute_receipt rc round = .ok (res, t')) : lifecycleOk t t' := by
  unfold Transaction.execute_receipt at h
  cases hout : findVal rc.id t.outgoing with
  | none =>
    rw [hout] at h
    simp at h
  | some ids =>
    rw [hout] at h
    simp only at h
    cases hall : t.activateAll ids round with
    | none =>
      rw [hall] at h
      simp at h
    | some q =>
      obtain ⟨rcs, t1⟩ := q
      rw [hall] at h
      simp only [Except.ok.injEq, Prod.mk.injEq] at h
      obtain ⟨-, ht'⟩ := h
      obtain ⟨hWF1, hperm1, hD1, hE1, hsub1, hst1⟩ :=
        activateAll_preserves ids t round hWF rcs t1 hall
      have hpend1 : rc.id ∈ t1.pending_receipts := hsub1 _ hpend
      obtain ⟨hA1, hB1, hC1, hD1n, exF1, exP1, exD1⟩ := bucket_facts hWF1
      have hnF1 : rc.id ∉ keysOf t1.future_receipts :=
        fun hf => (exF1 _ hf).1 hpend1
      obtain ⟨hnD1, hnE1⟩ := exP1 _ hpend1
      have hkeys : keysOf t'.executed_receipts =
          rc.id :: keysOf t1.executed_receipts := by
        rw [← ht']
        simp only
        unfold insertKey keysOf
        simp only [List.map_cons]
        rw [← keysOf, ← keysOf, eraseKey_of_not_mem hnE1]
      have hF' : t'.future_receipts = t1.future_receipts := by rw [← ht']
      have hP' : t'.pending_receipts = setRemove rc.id t1.pending_receipts := by
        rw [← ht']
      have hDr' : t'.dropped_receipts = t1.dropped_receipts := by rw [← ht']
      have hE' : t'.executed_receipts =
          insertKey rc.id { rc with executed_at := some round }
            t1.executed_receipts := by
        rw [← ht']
      have hperm' : (allIds t').Perm (allIds t1) := by
        unfold allIds
        rw [hkeys, hF', hP', hDr']
        simp only [List.append_assoc]
        exact List.Perm.append_left _ (perm_shift2 _ _ hB1 hpend1)
      have hperm : (allIds t').Perm (allIds t) := hperm'.trans hperm1
      have hWF' : WF t' := by
        refine ⟨hperm.symm.nodup hWF.1, ?_⟩
        intro p hp
        rw [hF'] at hp
        exact hWF1.2 p hp
      refine lifecycleOk_of hWF' hperm ?_
      intro id
      by_cases hid : id = rc.id
      · obtain ⟨-, -, -, -, exF, exP, -⟩ := bucket_facts hWF
        have hnF : rc.id ∉ keysOf t.future_receipts := fun hf => (exF _ hf).1 hpend
        have h0 : stateOf t rc.id = RState.pending := by
          unfold stateOf
          rw [if_neg (fun hc => hnF ((findVal_isSome_iff _ _).mp hc)), if_pos hpend]
        have h1 : stateOf t' rc.id = RState.executed := by
          unfold stateOf
          rw [if_neg ?_, if_neg ?_, if_neg ?_, if_pos ?_]
          · rw [hE', findVal_insertKey_self]
            rfl
          · rw [hDr']
            exact fun hc => hnD1 ((findVal_isSome_iff _ _).mp hc)
          · rw [hP']
            exact not_mem_setRemove_self _ _
          · rw [hF']
            exact fun hc => hnF1 ((findVal_isSome_iff _ _).mp hc)
        rw [hid, h0, h1]
        rfl
      · have he : stateOf t' id = stateOf t1 id := by
          unfold stateOf
          rw [hF', hDr', hE', findVal_insertKey_ne hid]
          have hmi : (id ∈ t'.pending_receipts) = (id ∈ t1.pending_receipts) := by
            rw [hP']
            simp only [eq_iff_iff, mem_setRemove]
            exact ⟨fun hh => hh.1, fun hh => ⟨hh, hid⟩⟩
          simp only [hmi]
        rw [he]
        rcases hst1 id with he1 | ⟨hf1, hp1⟩
        · rw [he1]
          exact stepOk_refl _
        · rw [hf1, hp1]
          rfl

/-- C1: under contract use (each operation applied to a receipt the tracker
emitted and still tracks as pending, on a well-formed state), every
operation keeps the state well formed, keeps every tracked receipt
identifier in exactly one of the four buckets, conserves the total receipt
count, and moves each identifier only along
`future → pending → (executed | dropped)` — never backwards and never
re-activating a departed identifier. -/
theorem transaction_lifecycle_invariant (t : Transaction) (round : Nat)
    (hWF : WF t) : lifecycleClaims t round :=
  ⟨fun res t' h => start_preserves t round hWF res t' h,
    fun rc res t' hp h => execute_preserves t rc round hWF hp res t' h,
    fun rc hp => drop_preserves t rc round hWF hp⟩

/-- Witness for C1 on the example transaction. -/
theorem transaction_lifecycle_invariant_witness :
    WF exTx ∧ lifecycleClaims exTx 1 :=
  ⟨by decide, transaction_lifecycle_invariant exTx 1 (by decide)⟩

end CongestionModel
